import Mathlib

/-!
Verification of the tick-simulation engine of a grid-based tower-defense
game. The definitions below are a shallow embedding of the TypeScript
sources: `position.ts`, `list.ts`, `vertex.ts`, `edge.ts`, `graph.ts`,
`world.ts`, `actors.ts`, `phases.ts` and `engine.ts`. The source's
immutable cons lists are embedded as Lean `List`; JavaScript numbers
(used only at integer values by the program) are embedded as `Int`
(`Nat` for identifiers and path lengths); functions of the source that
can throw return `Option` or `Except`; the two recursions of the source
whose termination depends on the input (`createVertexesRec`,
`pathfindingRec`) take an explicit fuel argument and return `none` when
it runs out, so that every value they do return is a value the source
computes.
-/

/-- Position: integer 2D coordinates (position.ts). -/
structure Position where
  x : Int
  y : Int
deriving DecidableEq, Repr

/-- Embedding of `createPosition` (position.ts). -/
def createPosition (x y : Int) : Position := { x := x, y := y }

/-- Embedding of `positionEquals` (position.ts): structural equality of coordinates. -/
def positionEquals (p1 p2 : Position) : Bool :=
  p1.x == p2.x && p1.y == p2.y

/-- Embedding of `translatePosition` (position.ts). -/
def translatePosition (position : Position) (dx dy : Int) : Position :=
  createPosition (position.x + dx) (position.y + dy)

/-- Squared Euclidean distance between two positions. The source's
`positionDistance` returns `Math.sqrt` of this quantity; the embedding
keeps the radicand exactly and compares square roots symbolically (see
`scoreLt`). -/
def sqDist (pos1 pos2 : Position) : Int :=
  (pos1.x - pos2.x) ^ 2 + (pos1.y - pos2.y) ^ 2

/-- Embedding of `listFoldR` (list.ts): `listFoldR f init (h :: t) = f (listFoldR f init t) h`,
so the head of the list is combined last. -/
def listFoldR {α β : Type _} (f : β → α → β) (init : β) : List α → β
  | [] => init
  | h :: t => f (listFoldR f init t) h

/-- Embedding of `appendList` (list.ts): append one element at the end. -/
def appendList {α : Type _} (l : List α) (elt : α) : List α :=
  match l with
  | [] => [elt]
  | h :: t => h :: appendList t elt

/-- Actor types (actors.ts). -/
inductive ActorType where
  | ENEMY | TOWER | SPAWNER | GOAL | WALL | UNKNOWN
deriving DecidableEq, Repr

/-- Embedding of the `Actor` record (actors.ts). The `actions` field of
the source holds the actor's optional behavior functions; no resolver or
query embedded here ever inspects it (the engine only copies it
unchanged), so it is omitted from the embedding. -/
structure Actor where
  id : Nat
  position : Position
  type : ActorType
  name : String
  health : Int
  maxHealth : Int
deriving DecidableEq, Repr

/-- Embedding of `copyActor` (actors.ts): a structural copy, which for a
pure value is the value itself. -/
def copyActor (anActor : Actor) : Actor := anActor

/-- Embedding of `setLifePoint` (actors.ts). -/
def setLifePoint (anActor : Actor) (newHealth : Int) : Actor :=
  { anActor with health := newHealth }

/-- Embedding of `setActorPosition` (actors.ts). -/
def setActorPosition (anActor : Actor) (newPosition : Position) : Actor :=
  { anActor with position := newPosition }

/-- Embedding of `getActorById` (actors.ts): first actor with the given id. -/
def getActorById (actors : List Actor) (anId : Nat) : Option Actor :=
  match actors with
  | [] => none
  | h :: t => if h.id = anId then some (copyActor h) else getActorById t anId

/-- Embedding of `replaceActor` (actors.ts): substitute for the first actor
sharing the new actor's id. -/
def replaceActor (actors : List Actor) (newActor : Actor) : List Actor :=
  match actors with
  | [] => []
  | h :: t => if h.id = newActor.id then newActor :: t else h :: replaceActor t newActor

/-- Embedding of `removeActor` (actors.ts): drop the first actor with the given id. -/
def removeActor (actors : List Actor) (id : Nat) : List Actor :=
  match actors with
  | [] => []
  | h :: t => if h.id = id then t else h :: removeActor t id

/-- Embedding of `getActorsAtPos` (actors.ts). -/
def getActorsAtPos (actors : List Actor) (pos : Position) : List Actor :=
  listFoldR (fun acc elt => if positionEquals elt.position pos then elt :: acc else acc)
    [] actors

/-- Embedding of `getActorsByType` (actors.ts). -/
def getActorsByType (actors : List Actor) (type : ActorType) : List Actor :=
  listFoldR (fun acc actor => if actor.type = type then appendList acc actor else acc)
    [] actors

/-- Embedding of `isWalkableByEnemy` (actors.ts): a cell is walkable iff
every occupant is of type ENEMY or GOAL. -/
def isWalkableByEnemy (actors : List Actor) (pos : Position) : Bool :=
  listFoldR
    (fun acc actor =>
      if actor.type = ActorType.ENEMY ∨ actor.type = ActorType.GOAL then acc else false)
    true (getActorsAtPos actors pos)

mutual
/-- Embedding of the `Vertex` record (vertex.ts): a position plus an
adjacency list of edges. -/
inductive Vertex where
  | mk : Position → List Edge → Vertex
/-- Embedding of the `Edge` record (edge.ts): a weight plus the target vertex. -/
inductive Edge where
  | mk : Int → Vertex → Edge
end

/-- Position component of a vertex. -/
def Vertex.pos : Vertex → Position
  | .mk p _ => p

/-- Adjacency list of a vertex. -/
def Vertex.adj : Vertex → List Edge
  | .mk _ a => a

/-- Weight component of an edge. -/
def Edge.weight : Edge → Int
  | .mk w _ => w

/-- Target vertex of an edge. -/
def Edge.vertex : Edge → Vertex
  | .mk _ v => v

/-- Embedding of `createVertex` (vertex.ts). -/
def createVertex (pos : Position) (adj : List Edge) : Vertex := .mk pos adj

/-- Embedding of `createEdge` (edge.ts). -/
def createEdge (weight : Int) (vertex : Vertex) : Edge := .mk weight vertex

/-- Embedding of `addEdge` (vertex.ts): same position, edge appended to the
adjacency list. -/
def addEdge (vertex : Vertex) (edge : Edge) : Vertex :=
  createVertex vertex.pos (appendList vertex.adj edge)

/-- Embedding of `getVertexByPos` of vertex.ts, the variant used by the
pathfinder: it throws when no vertex has the requested position, embedded
as `none`. -/
def getVertexByPos (vertexes : List Vertex) (pos : Position) : Option Vertex :=
  match vertexes with
  | [] => none
  | h :: t => if positionEquals h.pos pos then some h else getVertexByPos t pos

/-- Embedding of the `Graph` record (graph.ts): vertex list plus the stored count. -/
structure Graph where
  vertexes : List Vertex
  n : Int

/-- Embedding of `createGraph` (graph.ts). -/
def createGraph (v : List Vertex) (n : Int) : Graph := { vertexes := v, n := n }

/-- Embedding of the `World` record (world.ts). -/
structure World where
  graph : Graph
  size : Position

/-- Embedding of `isInWorld` (world.ts): inclusive bounds check. -/
def isInWorld (world : World) (pos : Position) : Bool :=
  decide (pos.x ≥ 0) && decide (pos.x ≤ world.size.x) &&
  decide (pos.y ≥ 0) && decide (pos.y ≤ world.size.y)

/-- Embedding of `createVertexesRec` (world.ts), with fuel: walks the
rectangle row by row from `currentPos` to `size`, producing one vertex per
cell (adjacency lists still empty). `none` means the fuel ran out before
the source recursion finished. -/
def createVertexesRec (fuel : Nat) (currentPos size : Position) : Option (List Vertex) :=
  match fuel with
  | 0 => none
  | fuel + 1 =>
    if positionEquals currentPos size then
      some (appendList [] (createVertex currentPos []))
    else
      match createVertexesRec fuel
          (if currentPos.x ≥ size.x then createPosition 0 (currentPos.y + 1)
           else createPosition (currentPos.x + 1) currentPos.y) size with
      | none => none
      | some l => some (appendList l (createVertex currentPos []))

/-- Embedding of the local `getVertexByPos` of world.ts (distinct from the
one in vertex.ts): on a miss it returns a default vertex at (-1,-1)
instead of throwing. -/
def WorldFile.getVertexByPos (vertexes : List Vertex) (pos : Position) : Vertex :=
  match vertexes with
  | [] => createVertex (createPosition (-1) (-1)) []
  | h :: t => if positionEquals h.pos pos then h else WorldFile.getVertexByPos t pos

/-- Per-vertex body of `addEdgesToGraphRec` (world.ts): add an edge of
weight 1 towards each of the up-to-four cardinal neighbors that exist
within bounds. -/
def addEdgesToVertex (vertexes : List Vertex) (size : Position) (v0 : Vertex) : Vertex :=
  let v1 := if v0.pos.x > 0 then
      addEdge v0 (createEdge 1 (WorldFile.getVertexByPos vertexes (createPosition (v0.pos.x - 1) v0.pos.y)))
    else v0
  let v2 := if v1.pos.x < size.x then
      addEdge v1 (createEdge 1 (WorldFile.getVertexByPos vertexes (createPosition (v1.pos.x + 1) v1.pos.y)))
    else v1
  let v3 := if v2.pos.y > 0 then
      addEdge v2 (createEdge 1 (WorldFile.getVertexByPos vertexes (createPosition v2.pos.x (v2.pos.y - 1))))
    else v2
  if v3.pos.y < size.y then
    addEdge v3 (createEdge 1 (WorldFile.getVertexByPos vertexes (createPosition v3.pos.x (v3.pos.y + 1))))
  else v3

/-- Embedding of the inner `addEdgesToGraphRec` (world.ts). -/
def addEdgesToGraphRec (vertexes : List Vertex) (size : Position) : List Vertex → List Vertex
  | [] => []
  | h :: t => appendList (addEdgesToGraphRec vertexes size t) (addEdgesToVertex vertexes size h)

/-- Embedding of `addEdgesToGraph` (world.ts). -/
def addEdgesToGraph (vertexes : List Vertex) (size : Position) : List Vertex :=
  addEdgesToGraphRec vertexes size vertexes

/-- Embedding of `buildWorld` (world.ts). Note the stored vertex count is
`size.x * size.y`, exactly as in the source. -/
def buildWorld (fuel : Nat) (size : Position) : Option World :=
  match createVertexesRec fuel (createPosition 0 0) size with
  | none => none
  | some vs => some { graph := createGraph (addEdgesToGraph vs size) (size.x * size.y), size := size }

/-- Search-node record of the pathfinder (graph.ts): vertex, optional
parent, g-cost (`distance`), and f-score. The source's f-score is
`distance + sqrt(sqDist(pos, dst))`; the embedding stores the exact pair
`(distance, sqDist pos dst)` and compares the corresponding real values
exactly through `scoreLt`. -/
inductive Node where
  | mk : Vertex → Option Node → Nat → Nat × Int → Node

/-- Vertex component of a search node. -/
def Node.vertex : Node → Vertex
  | .mk v _ _ _ => v

/-- Parent component of a search node. -/
def Node.parent : Node → Option Node
  | .mk _ p _ _ => p

/-- The g-cost of a search node. -/
def Node.distance : Node → Nat
  | .mk _ _ d _ => d

/-- The f-score of a search node, as the pair (g-cost, squared heuristic distance). -/
def Node.score : Node → Nat × Int
  | .mk _ _ _ s => s

/-- Decides `a + sqrt s < b + sqrt t` for integers with `s, t ≥ 0`: the
exact comparison of the real-valued f-scores `distance + Euclidean
distance` computed by the source. -/
def scoreLt (s1 s2 : Nat × Int) : Bool :=
  let a : Int := (s1.1 : Int)
  let s : Int := s1.2
  let b : Int := (s2.1 : Int)
  let t : Int := s2.2
  let d : Int := b - a
  if 0 ≤ d then
    let L : Int := s - d ^ 2 - t
    decide (L < 0) || decide (L ^ 2 < 4 * d ^ 2 * t)
  else
    let M : Int := t - s - d ^ 2
    decide (0 < M) && decide (4 * d ^ 2 * s < M ^ 2)

/-- Embedding of `makeNode` (graph.ts). -/
def makeNode (parent : Option Node) (vertex : Vertex) (dst : Position) : Node :=
  let distance : Nat := match parent with
    | some p => p.distance + 1
    | none => 0
  .mk vertex parent distance (distance, sqDist vertex.pos dst)

/-- Embedding of `extractClosestNode` (graph.ts): fold over the whole list
with the head as initial value, keeping the node of strictly smaller
score. The source calls `head` which throws on an empty list, embedded as
`none`. -/
def extractClosestNode (nodes : List Node) : Option Node :=
  match nodes with
  | [] => none
  | h :: _ =>
    some (listFoldR (fun acc node => if scoreLt node.score acc.score then node else acc) h nodes)

/-- Embedding of `reconstructPath` (graph.ts): walk the parent chain,
returning the vertices in root-to-node order. -/
def reconstructPath : Node → List Vertex
  | .mk v none _ _ => [v]
  | .mk v (some p) _ _ => appendList (reconstructPath p) v

/-- Embedding of `isNodeInList` (graph.ts): membership keyed by vertex position. -/
def isNodeInList (nodes : List Node) (node : Node) : Bool :=
  match nodes with
  | [] => false
  | h :: t =>
    if positionEquals h.vertex.pos node.vertex.pos then true else isNodeInList t node

/-- Embedding of `updateNodeInList` (graph.ts): replace the entry at the
node's position when the new g-cost is strictly smaller. The source
throws on an empty list, embedded as `none`. -/
def updateNodeInList (nodes : List Node) (node : Node) : Option (List Node) :=
  match nodes with
  | [] => none
  | h :: t =>
    if positionEquals h.vertex.pos node.vertex.pos then
      if node.distance < h.distance then some (node :: t) else some (h :: t)
    else
      match updateNodeInList t node with
      | none => none
      | some t2 => some (h :: t2)

/-- Embedding of `removeNodeFromList` (graph.ts). -/
def removeNodeFromList (nodes : List Node) (node : Node) : List Node :=
  match nodes with
  | [] => []
  | h :: t =>
    if positionEquals h.vertex.pos node.vertex.pos then t else h :: removeNodeFromList t node

/-- Errors thrown by the pathfinder of the source: a missing vertex
(`getVertexByPos` of vertex.ts) or the unreachable branch of
`updateNodeInList` and `extractClosestNode`. -/
inductive PathError where
  | vertexNotFound : Position → PathError
  | unexpected : PathError
deriving DecidableEq, Repr

/-- Body of the neighbor fold of `pathfindingRec` (graph.ts), with the
thrown errors made explicit in an `Except`. -/
def neighborStep (G : Graph) (actors : List Actor) (dst : Position) (current : Node)
    (acc : Except PathError (List Node × List Node)) (edge : Edge) :
    Except PathError (List Node × List Node) :=
  match acc with
  | .error e => .error e
  | .ok (openList, closedList) =>
    match getVertexByPos G.vertexes edge.vertex.pos with
    | none => .error (.vertexNotFound edge.vertex.pos)
    | some v =>
      let neighbor := makeNode (some current) v dst
      if isNodeInList closedList neighbor then .ok (openList, closedList)
      else if !(isWalkableByEnemy actors neighbor.vertex.pos) then
        .ok (openList, neighbor :: closedList)
      else if !(isNodeInList openList neighbor) then
        .ok (appendList openList neighbor, closedList)
      else
        match updateNodeInList openList neighbor with
        | none => .error .unexpected
        | some l => .ok (l, closedList)

/-- Embedding of `pathfindingRec` (graph.ts), with fuel. The outer `none`
means the fuel ran out; `some (.ok path)` is a returned path (empty when
the open list is exhausted, i.e. the destination is unreachable);
`some (.error e)` is a thrown error. -/
def pathfindingRec (fuel : Nat) (openList closedList : List Node) (dst : Position)
    (G : Graph) (actors : List Actor) : Option (Except PathError (List Vertex)) :=
  match fuel with
  | 0 => none
  | fuel + 1 =>
    match openList with
    | [] => some (.ok [])
    | _ :: _ =>
      match extractClosestNode openList with
      | none => some (.error .unexpected)
      | some current =>
        let openList2 := removeNodeFromList openList current
        if positionEquals current.vertex.pos dst then
          some (.ok (reconstructPath current))
        else
          let closedList2 := appendList closedList current
          match listFoldR (neighborStep G actors dst current)
              (.ok (openList2, closedList2)) current.vertex.adj with
          | .error e => some (.error e)
          | .ok (o, c) => pathfindingRec fuel o c dst G actors

/-- Embedding of `pathfinding` (graph.ts): the initial open list holds one
root node at the source vertex; the lookup of the source vertex throws
when absent. -/
def pathfinding (fuel : Nat) (src dst : Position) (G : Graph) (actors : List Actor) :
    Option (Except PathError (List Vertex)) :=
  match getVertexByPos G.vertexes src with
  | none => some (.error (.vertexNotFound src))
  | some v => pathfindingRec fuel [makeNode none v dst] [] dst G actors

/-- Attack proposal entry (phases.ts): target id and damage. -/
structure AttackPair where
  id : Nat
  damage : Int
deriving DecidableEq, Repr

/-- Heal proposal entry (phases.ts): target id and heal amount. -/
structure HealPair where
  id : Nat
  heal : Int
deriving DecidableEq, Repr

/-- Body of the move resolver's fold (phases.ts, `computePhases`): apply an
in-bounds move proposal through `replaceActor`, drop the others. A `none`
proposal is an actor without a move behavior. -/
def moveStep (aWorld : World) (acc : World × List Actor) (proposal : Option Actor) :
    World × List Actor :=
  match proposal with
  | some p => if isInWorld aWorld p.position then (acc.1, replaceActor acc.2 p) else acc
  | none => acc

/-- Embedding of the move resolver of `computePhases` (phases.ts). -/
def resolveMove (aWorld : World) (actors : List Actor) (proposals : List (Option Actor)) :
    World × List Actor :=
  listFoldR (moveStep aWorld) (aWorld, actors) proposals

/-- Body of the attack resolver's inner fold (phases.ts): look the target
up in the registry as updated so far; remove it on lethal damage,
otherwise subtract the damage; skip absent targets. -/
def attackStep (acc2 : World × List Actor) (attack : AttackPair) : World × List Actor :=
  match getActorById acc2.2 attack.id with
  | some anActor =>
    if anActor.health ≤ attack.damage then (acc2.1, removeActor acc2.2 anActor.id)
    else (acc2.1, replaceActor acc2.2 (setLifePoint anActor (anActor.health - attack.damage)))
  | none => acc2

/-- Embedding of the attack resolver of `computePhases` (phases.ts). In the
source an absent proposal and an empty pair list are the same falsy value,
checked by `if (proposal)`; here that check is the match on `[]`. -/
def resolveAttack (aWorld : World) (actors : List Actor)
    (proposals : List (List AttackPair)) : World × List Actor :=
  listFoldR
    (fun acc proposal =>
      match proposal with
      | [] => acc
      | _ :: _ => listFoldR attackStep acc proposal)
    (aWorld, actors) proposals

/-- Body of the spawn resolver's fold (phases.ts): a named spawn is
appended to `actors`, the registry snapshot captured at the start of the
phase, not to the fold's accumulator. -/
def spawnStep (actors : List Actor) (acc : World × List Actor) (proposal : Option Actor) :
    World × List Actor :=
  match proposal with
  | some p => (acc.1, appendList actors p)
  | none => acc

/-- Embedding of the spawn resolver of `computePhases` (phases.ts). -/
def resolveSpawn (aWorld : World) (actors : List Actor) (proposals : List (Option Actor)) :
    World × List Actor :=
  listFoldR (spawnStep actors) (aWorld, actors) proposals

/-- Body of the heal resolver's inner fold (phases.ts): cap the healed
target at its maximum health; skip absent targets. -/
def healStep (acc2 : World × List Actor) (attack : HealPair) : World × List Actor :=
  match getActorById acc2.2 attack.id with
  | some anActor =>
    if anActor.health + attack.heal > anActor.maxHealth then
      (acc2.1, replaceActor acc2.2 (setLifePoint anActor anActor.maxHealth))
    else
      (acc2.1, replaceActor acc2.2 (setLifePoint anActor (anActor.health + attack.heal)))
  | none => acc2

/-- Embedding of the heal resolver of `computePhases` (phases.ts). -/
def resolveHeal (aWorld : World) (actors : List Actor)
    (proposals : List (List HealPair)) : World × List Actor :=
  listFoldR
    (fun acc proposal =>
      match proposal with
      | [] => acc
      | _ :: _ => listFoldR healStep acc proposal)
    (aWorld, actors) proposals

/-- The winner type of engine.ts. -/
inductive Winner where
  | ENEMY | TOWER | NONE
deriving DecidableEq, Repr

/-- Embedding of `gameIsOver` (engine.ts). -/
def gameIsOver (aWorld : World) (actors : List Actor) : Winner :=
  if (getActorsByType actors ActorType.ENEMY).isEmpty
      && (getActorsByType actors ActorType.SPAWNER).isEmpty then Winner.TOWER
  else if (getActorsByType actors ActorType.GOAL).isEmpty then Winner.ENEMY
  else Winner.NONE

/-- First spawn proposal naming an actor, scanning from the head of the
proposal list. Because `listFoldR` combines the head of the list last,
this is the proposal the spawn resolver's fold processes last. -/
def firstSpawn : List (Option Actor) → Option Actor
  | [] => none
  | some a :: _ => some a
  | none :: t => firstSpawn t

/-- Uniqueness of actor ids in a registry, the invariant the spec states
for id assignment. -/
def uniqueIds (actors : List Actor) : Prop := (actors.map Actor.id).Nodup

/-- The health invariant of the spec: every actor has positive health, at
most its maximum health. -/
def healthInv (actors : List Actor) : Prop :=
  ∀ a ∈ actors, 0 < a.health ∧ a.health ≤ a.maxHealth

/-- Soundness predicate on search nodes: the root of the parent chain sits
at the search source, and every other node of the chain sits on a cell
that is walkable by enemies. -/
inductive NodeOk (src : Position) (actors : List Actor) : Node → Prop where
  | root : ∀ (v : Vertex) (d : Nat) (s : Nat × Int),
      v.pos = src → NodeOk src actors (.mk v none d s)
  | step : ∀ (v : Vertex) (p : Node) (d : Nat) (s : Nat × Int),
      isWalkableByEnemy actors v.pos = true → NodeOk src actors p →
      NodeOk src actors (.mk v (some p) d s)

/-- Cells of the rectangle that `createVertexesRec` still has to visit when
its cursor is at `cur`: the rest of the current row, then all full rows
above it. -/
def inRegion (cur size p : Position) : Prop :=
  (p.y = cur.y ∧ cur.x ≤ p.x ∧ p.x ≤ size.x) ∨
  (cur.y < p.y ∧ p.y ≤ size.y ∧ 0 ≤ p.x ∧ p.x ≤ size.x)

instance (cur size p : Position) : Decidable (inRegion cur size p) := by
  unfold inRegion
  infer_instance

/-- Number of vertices of a list lying at a given position. -/
def countAt (l : List Vertex) (p : Position) : Nat :=
  l.countP (fun v => decide (v.pos = p))

/-- Actor literal used by the concrete test inputs below. -/
def mkActor (id : Nat) (pos : Position) (ty : ActorType) (health maxHealth : Int) : Actor :=
  { id := id, position := pos, type := ty, name := "a", health := health, maxHealth := maxHealth }

/-- Concrete world of size (10,10) used by concrete test inputs (the graph
plays no role in the resolvers). -/
def smallWorld : World := { graph := createGraph [] 0, size := createPosition 10 10 }

/-- Concrete world of size (2,2) with an empty graph, for bounds tests. -/
def tinyWorld : World := { graph := createGraph [] 0, size := createPosition 2 2 }

/-- The 3 by 3 world of the spec's pathfinding test, built by `buildWorld`. -/
def world3 : Option World := buildWorld 20 (createPosition 2 2)

/-- A single WALL-type actor blocking cell (1,0), per the spec's pathfinding test. -/
def wallActors : List Actor := [mkActor 0 (createPosition 1 0) ActorType.WALL 100 100]

/-- Checks that a pathfinding run returned a path and that no vertex of it
lies at the given blocked position. -/
def pathAvoids (res : Option (Except PathError (List Vertex))) (bad : Position) : Bool :=
  match res with
  | some (.ok path) => path.all (fun v => !(positionEquals v.pos bad))
  | _ => false

/-! Basic lemmas about the embedded list and registry operations. -/

theorem appendList_eq {α : Type _} (l : List α) (x : α) : appendList l x = l ++ [x] := by
  induction l with
  | nil => rfl
  | cons h t ih => simp [appendList, ih]

theorem listFoldR_nil {α β : Type _} (f : β → α → β) (init : β) :
    listFoldR f init [] = init := rfl

theorem listFoldR_cons {α β : Type _} (f : β → α → β) (init : β) (h : α) (t : List α) :
    listFoldR f init (h :: t) = f (listFoldR f init t) h := rfl

theorem positionEquals_eq_true {p q : Position} : positionEquals p q = true ↔ p = q := by
  cases p; cases q
  simp [positionEquals]

theorem positionEquals_self (p : Position) : positionEquals p p = true := by
  simp [positionEquals_eq_true]

theorem listFoldR_fst {α β γ : Type _} (f : β × γ → α → β × γ) (init : β × γ)
    (l : List α) (h : ∀ acc x, (f acc x).1 = acc.1) : (listFoldR f init l).1 = init.1 := by
  induction l with
  | nil => rfl
  | cons hd t ih => rw [listFoldR_cons, h, ih]

theorem getActorById_mem {reg : List Actor} {i : Nat} {a : Actor}
    (h : getActorById reg i = some a) : a ∈ reg ∧ a.id = i := by
  induction reg with
  | nil => simp [getActorById] at h
  | cons hd t ih =>
    by_cases hid : hd.id = i
    · rw [getActorById, if_pos hid] at h
      have ha : a = hd := by
        have := h.symm
        simpa [copyActor] using this
      subst ha
      exact ⟨List.mem_cons_self _ _, hid⟩
    · rw [getActorById, if_neg hid] at h
      obtain ⟨hm, hi⟩ := ih h
      exact ⟨List.mem_cons_of_mem _ hm, hi⟩

theorem getActorById_eq_none {reg : List Actor} {i : Nat} :
    getActorById reg i = none ↔ ∀ a ∈ reg, a.id ≠ i := by
  induction reg with
  | nil => simp [getActorById]
  | cons hd t ih =>
    by_cases hid : hd.id = i
    · rw [getActorById, if_pos hid]
      constructor
      · intro h; exact Option.noConfusion h
      · intro h; exact absurd hid (h hd (List.mem_cons_self _ _))
    · rw [getActorById, if_neg hid, ih]
      constructor
      · intro h a ha
        rcases List.mem_cons.mp ha with h1 | h1
        · subst h1; exact hid
        · exact h a h1
      · intro h a ha; exact h a (List.mem_cons_of_mem _ ha)

theorem getActorById_replace_of_ne {reg : List Actor} {b : Actor} {i : Nat}
    (h : b.id ≠ i) : getActorById (replaceActor reg b) i = getActorById reg i := by
  induction reg with
  | nil => rfl
  | cons hd t ih =>
    by_cases hb : hd.id = b.id
    · have hdi : hd.id ≠ i := by rw [hb]; exact h
      rw [replaceActor, if_pos hb, getActorById, if_neg h, getActorById, if_neg hdi]
    · rw [replaceActor, if_neg hb]
      by_cases hdi : hd.id = i
      · rw [getActorById, if_pos hdi, getActorById, if_pos hdi]
      · rw [getActorById, if_neg hdi, getActorById, if_neg hdi, ih]

theorem getActorById_replace_self {reg : List Actor} {i : Nat} {a b : Actor}
    (h : getActorById reg i = some a) (hb : b.id = i) :
    getActorById (replaceActor reg b) i = some b := by
  induction reg with
  | nil => simp [getActorById] at h
  | cons hd t ih =>
    by_cases hid : hd.id = i
    · have hb2 : hd.id = b.id := by rw [hid, hb]
      rw [replaceActor, if_pos hb2, getActorById, if_pos hb, copyActor]
    · have hb2 : hd.id ≠ b.id := by rw [hb]; exact hid
      rw [getActorById, if_neg hid] at h
      rw [replaceActor, if_neg hb2, getActorById, if_neg hid, ih h]

theorem replaceActor_self {reg : List Actor} {i : Nat} {a : Actor}
    (h : getActorById reg i = some a) : replaceActor reg a = reg := by
  have hai : a.id = i := (getActorById_mem h).2
  induction reg with
  | nil => rfl
  | cons hd t ih =>
    by_cases hid : hd.id = i
    · rw [getActorById, if_pos hid] at h
      have ha : a = hd := by
        have := h.symm
        simpa [copyActor] using this
      have : hd.id = a.id := by rw [ha]
      rw [replaceActor, if_pos this, ha]
    · rw [getActorById, if_neg hid] at h
      have : hd.id ≠ a.id := by rw [hai]; exact hid
      rw [replaceActor, if_neg this, ih h]

theorem mem_of_mem_removeActor {reg : List Actor} {i : Nat} {a : Actor}
    (h : a ∈ removeActor reg i) : a ∈ reg := by
  induction reg with
  | nil => simp [removeActor] at h
  | cons hd t ih =>
    by_cases hid : hd.id = i
    · simp [removeActor, hid] at h
      exact List.mem_cons_of_mem _ h
    · simp [removeActor, hid] at h
      rcases h with h | h
      · exact h ▸ List.mem_cons_self _ _
      · exact List.mem_cons_of_mem _ (ih h)

theorem mem_replaceActor {reg : List Actor} {b a : Actor}
    (h : a ∈ replaceActor reg b) : a ∈ reg ∨ a = b := by
  induction reg with
  | nil => simp [replaceActor] at h
  | cons hd t ih =>
    by_cases hid : hd.id = b.id
    · simp [replaceActor, hid] at h
      rcases h with h | h
      · exact Or.inr h
      · exact Or.inl (List.mem_cons_of_mem _ h)
    · simp [replaceActor, hid] at h
      rcases h with h | h
      · exact Or.inl (h ▸ List.mem_cons_self _ _)
      · rcases ih h with h2 | h2
        · exact Or.inl (List.mem_cons_of_mem _ h2)
        · exact Or.inr h2

theorem getActorById_removeActor_self {reg : List Actor} {i : Nat}
    (hu : uniqueIds reg) : getActorById (removeActor reg i) i = none := by
  induction reg with
  | nil => rfl
  | cons hd t ih =>
    unfold uniqueIds at hu
    simp [List.nodup_cons] at hu
    by_cases hid : hd.id = i
    · simp [removeActor, hid]
      rw [getActorById_eq_none]
      intro a ha
      intro hai
      exact hu.1 a ha (by rw [hai, hid])
    · simp [removeActor, hid, getActorById]
      exact ih hu.2

theorem mem_getActorsByType {reg : List Actor} {ty : ActorType} {a : Actor} :
    a ∈ getActorsByType reg ty ↔ a ∈ reg ∧ a.type = ty := by
  induction reg with
  | nil => simp [getActorsByType, listFoldR]
  | cons hd t ih =>
    have hstep : getActorsByType (hd :: t) ty
        = if hd.type = ty then appendList (getActorsByType t ty) hd
          else getActorsByType t ty := rfl
    rw [hstep]
    by_cases hty : hd.type = ty
    · rw [if_pos hty, appendList_eq]
      rw [List.mem_append, List.mem_singleton, ih, List.mem_cons]
      constructor
      · rintro (⟨h1, h2⟩ | h)
        · exact ⟨Or.inr h1, h2⟩
        · subst h; exact ⟨Or.inl rfl, hty⟩
      · rintro ⟨h1 | h1, h2⟩
        · subst h1; exact Or.inr rfl
        · exact Or.inl ⟨h1, h2⟩
    · rw [if_neg hty, ih, List.mem_cons]
      constructor
      · rintro ⟨h1, h2⟩; exact ⟨Or.inr h1, h2⟩
      · rintro ⟨h1 | h1, h2⟩
        · exact absurd (h1 ▸ h2) hty
        · exact ⟨h1, h2⟩

theorem getActorsByType_isEmpty {reg : List Actor} {ty : ActorType} :
    (getActorsByType reg ty).isEmpty = true ↔ ∀ a ∈ reg, a.type ≠ ty := by
  rw [List.isEmpty_iff, List.eq_nil_iff_forall_not_mem]
  constructor
  · intro h a ha hty
    exact h a (mem_getActorsByType.mpr ⟨ha, hty⟩)
  · intro h a ha
    obtain ⟨h1, h2⟩ := mem_getActorsByType.mp ha
    exact h a h1 h2

/-! Lemmas about the phase resolvers. -/

theorem moveStep_fst (w : World) (acc : World × List Actor) (p : Option Actor) :
    (moveStep w acc p).1 = acc.1 := by
  cases p with
  | none => rfl
  | some q =>
    show (if isInWorld w q.position = true then (acc.1, replaceActor acc.2 q) else acc).1 = acc.1
    split <;> rfl

theorem attackStep_fst (acc : World × List Actor) (p : AttackPair) :
    (attackStep acc p).1 = acc.1 := by
  unfold attackStep
  cases getActorById acc.2 p.id with
  | none => rfl
  | some a => dsimp only; split <;> rfl

theorem healStep_fst (acc : World × List Actor) (p : HealPair) :
    (healStep acc p).1 = acc.1 := by
  unfold healStep
  cases getActorById acc.2 p.id with
  | none => rfl
  | some a => dsimp only; split <;> rfl

theorem spawnStep_fst (reg : List Actor) (acc : World × List Actor) (p : Option Actor) :
    (spawnStep reg acc p).1 = acc.1 := by
  cases p <;> rfl

theorem resolveMove_fst (w : World) (reg : List Actor) (props : List (Option Actor)) :
    (resolveMove w reg props).1 = w :=
  listFoldR_fst _ _ _ (moveStep_fst w)

theorem resolveAttack_fst (w : World) (reg : List Actor) (props : List (List AttackPair)) :
    (resolveAttack w reg props).1 = w := by
  refine listFoldR_fst _ _ _ ?_
  intro acc prop
  cases prop with
  | nil => rfl
  | cons q qs =>
    show (listFoldR attackStep acc (q :: qs)).1 = acc.1
    exact listFoldR_fst _ _ _ attackStep_fst

theorem resolveSpawn_fst (w : World) (reg : List Actor) (props : List (Option Actor)) :
    (resolveSpawn w reg props).1 = w :=
  listFoldR_fst _ _ _ (spawnStep_fst reg)

theorem resolveHeal_fst (w : World) (reg : List Actor) (props : List (List HealPair)) :
    (resolveHeal w reg props).1 = w := by
  refine listFoldR_fst _ _ _ ?_
  intro acc prop
  cases prop with
  | nil => rfl
  | cons q qs =>
    show (listFoldR healStep acc (q :: qs)).1 = acc.1
    exact listFoldR_fst _ _ _ healStep_fst

theorem resolveAttack_eq_fold (w : World) (reg : List Actor) (props : List (List AttackPair)) :
    resolveAttack w reg props
      = listFoldR (fun acc proposal => listFoldR attackStep acc proposal) (w, reg) props := by
  induction props with
  | nil => rfl
  | cons p ps ih =>
    cases p with
    | nil =>
      show resolveAttack w reg ps = listFoldR attackStep (listFoldR _ (w, reg) ps) []
      rw [listFoldR_nil, ← ih]
    | cons q qs =>
      show listFoldR attackStep (resolveAttack w reg ps) (q :: qs) = _
      rw [ih]
      rfl

theorem resolveHeal_eq_fold (w : World) (reg : List Actor) (props : List (List HealPair)) :
    resolveHeal w reg props
      = listFoldR (fun acc proposal => listFoldR healStep acc proposal) (w, reg) props := by
  induction props with
  | nil => rfl
  | cons p ps ih =>
    cases p with
    | nil =>
      show resolveHeal w reg ps = listFoldR healStep (listFoldR _ (w, reg) ps) []
      rw [listFoldR_nil, ← ih]
    | cons q qs =>
      show listFoldR healStep (resolveHeal w reg ps) (q :: qs) = _
      rw [ih]
      rfl

/-- C9: for each of the four phase resolvers of `computePhases` (move,
attack, spawn, heal) and every input World, registry and proposal list,
the World component of the result is exactly the input World. -/
theorem resolvers_preserve_world :
    (∀ (w : World) (reg : List Actor) (props : List (Option Actor)),
        (resolveMove w reg props).1 = w)
    ∧ (∀ (w : World) (reg : List Actor) (props : List (List AttackPair)),
        (resolveAttack w reg props).1 = w)
    ∧ (∀ (w : World) (reg : List Actor) (props : List (Option Actor)),
        (resolveSpawn w reg props).1 = w)
    ∧ (∀ (w : World) (reg : List Actor) (props : List (List HealPair)),
        (resolveHeal w reg props).1 = w) :=
  ⟨resolveMove_fst, resolveAttack_fst, resolveSpawn_fst, resolveHeal_fst⟩

/-- C5: `gameIsOver` returns TOWER when the registry holds no ENEMY and no
SPAWNER actor, ENEMY when it holds no GOAL actor, NONE otherwise, with
the TOWER condition checked first. -/
theorem gameIsOver_spec (w : World) (actors : List Actor) :
    ((∀ a ∈ actors, a.type ≠ ActorType.ENEMY) → (∀ a ∈ actors, a.type ≠ ActorType.SPAWNER) →
      gameIsOver w actors = Winner.TOWER)
    ∧ ((∃ a ∈ actors, a.type = ActorType.ENEMY ∨ a.type = ActorType.SPAWNER) →
        (∀ a ∈ actors, a.type ≠ ActorType.GOAL) → gameIsOver w actors = Winner.ENEMY)
    ∧ ((∃ a ∈ actors, a.type = ActorType.ENEMY ∨ a.type = ActorType.SPAWNER) →
        (∃ a ∈ actors, a.type = ActorType.GOAL) → gameIsOver w actors = Winner.NONE) := by
  refine ⟨?_, ?_, ?_⟩
  · intro h1 h2
    unfold gameIsOver
    rw [if_pos]
    rw [Bool.and_eq_true, getActorsByType_isEmpty, getActorsByType_isEmpty]
    exact ⟨h1, h2⟩
  · rintro ⟨a, ha, hty⟩ h2
    unfold gameIsOver
    rw [if_neg, if_pos]
    · rw [getActorsByType_isEmpty]
      exact h2
    · rw [Bool.and_eq_true, getActorsByType_isEmpty, getActorsByType_isEmpty]
      rintro ⟨hA, hB⟩
      rcases hty with h | h
      · exact hA a ha h
      · exact hB a ha h
  · rintro ⟨a, ha, hty⟩ ⟨g, hg, hgty⟩
    unfold gameIsOver
    rw [if_neg, if_neg]
    · rw [getActorsByType_isEmpty]
      intro h
      exact h g hg hgty
    · rw [Bool.and_eq_true, getActorsByType_isEmpty, getActorsByType_isEmpty]
      rintro ⟨hA, hB⟩
      rcases hty with h | h
      · exact hA a ha h
      · exact hB a ha h

/-- Witness for `gameIsOver_spec` on concrete registries exercising all
three branches. -/
theorem gameIsOver_spec_witness :
    gameIsOver smallWorld [mkActor 0 (createPosition 0 0) ActorType.GOAL 1 1] = Winner.TOWER
    ∧ gameIsOver smallWorld [mkActor 0 (createPosition 0 0) ActorType.ENEMY 1 1] = Winner.ENEMY
    ∧ gameIsOver smallWorld
        [mkActor 0 (createPosition 0 0) ActorType.ENEMY 1 1,
         mkActor 1 (createPosition 1 1) ActorType.GOAL 1 1] = Winner.NONE :=
  ⟨(gameIsOver_spec smallWorld _).1 (by decide) (by decide),
   (gameIsOver_spec smallWorld _).2.1 (by decide) (by decide),
   (gameIsOver_spec smallWorld _).2.2 (by decide) (by decide)⟩

theorem setLifePoint_id (a : Actor) (x : Int) : (setLifePoint a x).id = a.id := rfl

theorem setLifePoint_health_self (a : Actor) : setLifePoint a a.health = a := rfl

/-- C6: the move resolver applies every in-bounds move proposal through
`replaceActor` on the registry being built, drops every out-of-bounds
proposal, and when every proposal carrying a given id is out of bounds
that id's registry entry is left exactly as before the phase. -/
theorem move_resolver_spec (w : World) (reg : List Actor) :
    (∀ (p : Actor) (ps : List (Option Actor)),
        resolveMove w reg (some p :: ps)
          = if isInWorld w p.position = true then
              ((resolveMove w reg ps).1, replaceActor (resolveMove w reg ps).2 p)
            else resolveMove w reg ps)
    ∧ (∀ ps : List (Option Actor), resolveMove w reg (none :: ps) = resolveMove w reg ps)
    ∧ (∀ (props : List (Option Actor)) (i : Nat),
        (∀ q : Actor, some q ∈ props → q.id = i → isInWorld w q.position = false) →
        getActorById (resolveMove w reg props).2 i = getActorById reg i) := by
  refine ⟨fun p ps => rfl, fun ps => rfl, ?_⟩
  intro props i h
  induction props with
  | nil => rfl
  | cons p ps ih =>
    have hps : ∀ q : Actor, some q ∈ ps → q.id = i → isInWorld w q.position = false :=
      fun q hq => h q (List.mem_cons_of_mem _ hq)
    cases p with
    | none =>
      show getActorById (moveStep w (resolveMove w reg ps) none).2 i = _
      exact ih hps
    | some q =>
      show getActorById (moveStep w (resolveMove w reg ps) (some q)).2 i = _
      have hred : moveStep w (resolveMove w reg ps) (some q)
          = if isInWorld w q.position = true then
              ((resolveMove w reg ps).1, replaceActor (resolveMove w reg ps).2 q)
            else resolveMove w reg ps := rfl
      rw [hred]
      by_cases hin : isInWorld w q.position = true
      · rw [if_pos hin]
        by_cases hqi : q.id = i
        · have := h q (List.mem_cons_self _ _) hqi
          rw [hin] at this
          exact Bool.noConfusion this
        · show getActorById (replaceActor (resolveMove w reg ps).2 q) i = _
          rw [getActorById_replace_of_ne hqi]
          exact ih hps
      · rw [if_neg hin]
        exact ih hps

/-- Witness for `move_resolver_spec`: a move of actor 0 to (5,5), out of
bounds in a world of size (2,2), leaves the entry of actor 0 untouched. -/
theorem move_resolver_spec_witness :
    getActorById (resolveMove tinyWorld [mkActor 0 (createPosition 0 0) ActorType.ENEMY 1 1]
        [some (mkActor 0 (createPosition 5 5) ActorType.ENEMY 1 1)]).2 0
      = getActorById [mkActor 0 (createPosition 0 0) ActorType.ENEMY 1 1] 0 :=
  (move_resolver_spec tinyWorld [mkActor 0 (createPosition 0 0) ActorType.ENEMY 1 1]).2.2
    [some (mkActor 0 (createPosition 5 5) ActorType.ENEMY 1 1)] 0
    (by
      intro q hq hqi
      rw [List.mem_singleton, Option.some_inj] at hq
      subst hq
      decide)

/-- C7: the heal resolver is the fold of `healStep`; a heal pair whose
target is present sets its health to the minimum of health plus amount
and maximum health (so a full-health target is left unchanged), and a
pair whose target is absent leaves the state unchanged. -/
theorem heal_resolver_spec (w : World) (reg : List Actor) (props : List (List HealPair)) :
    (resolveHeal w reg props
        = listFoldR (fun acc proposal => listFoldR healStep acc proposal) (w, reg) props)
    ∧ (∀ (st : World × List Actor) (pair : HealPair) (a : Actor),
        getActorById st.2 pair.id = some a → 0 ≤ pair.heal →
          (healStep st pair
              = (st.1, replaceActor st.2 (setLifePoint a (min (a.health + pair.heal) a.maxHealth)))
            ∧ getActorById (healStep st pair).2 pair.id
              = some (setLifePoint a (min (a.health + pair.heal) a.maxHealth))
            ∧ (a.health = a.maxHealth → healStep st pair = st)))
    ∧ (∀ (st : World × List Actor) (pair : HealPair),
        getActorById st.2 pair.id = none → healStep st pair = st) := by
  refine ⟨resolveHeal_eq_fold w reg props, ?_, ?_⟩
  · intro st pair a h hheal
    have haid : a.id = pair.id := (getActorById_mem h).2
    have hstep : healStep st pair
        = if a.health + pair.heal > a.maxHealth then
            (st.1, replaceActor st.2 (setLifePoint a a.maxHealth))
          else (st.1, replaceActor st.2 (setLifePoint a (a.health + pair.heal))) := by
      unfold healStep
      rw [h]
    by_cases hover : a.health + pair.heal > a.maxHealth
    · have hmin : min (a.health + pair.heal) a.maxHealth = a.maxHealth :=
        min_eq_right (le_of_lt hover)
      rw [hstep, if_pos hover, hmin]
      refine ⟨rfl, ?_, ?_⟩
      · show getActorById (replaceActor st.2 (setLifePoint a a.maxHealth)) pair.id = _
        exact getActorById_replace_self h (by rw [setLifePoint_id, haid])
      · intro hfull
        have hsame : setLifePoint a a.maxHealth = a := by
          rw [← hfull]
          exact setLifePoint_health_self a
        rw [hsame, replaceActor_self h]
    · have hle : a.health + pair.heal ≤ a.maxHealth := le_of_not_lt hover
      have hmin : min (a.health + pair.heal) a.maxHealth = a.health + pair.heal :=
        min_eq_left hle
      rw [hstep, if_neg hover, hmin]
      refine ⟨rfl, ?_, ?_⟩
      · show getActorById (replaceActor st.2 (setLifePoint a (a.health + pair.heal))) pair.id = _
        exact getActorById_replace_self h (by rw [setLifePoint_id, haid])
      · intro hfull
        have hz : pair.heal = 0 := by
          rw [hfull] at hle
          omega
        have hsame : setLifePoint a (a.health + pair.heal) = a := by
          rw [hz, add_zero]
          exact setLifePoint_health_self a
        rw [hsame, replaceActor_self h]
  · intro st pair h
    unfold healStep
    rw [h]

/-- Witness for `heal_resolver_spec`: healing actor 0 (health 5, maximum
10) by 3 yields health min(5+3,10) = 8. -/
theorem heal_resolver_spec_witness :
    getActorById (healStep (smallWorld, [mkActor 0 (createPosition 0 0) ActorType.ENEMY 5 10])
        { id := 0, heal := 3 }).2 0
      = some (setLifePoint (mkActor 0 (createPosition 0 0) ActorType.ENEMY 5 10) (min (5 + 3) 10)) :=
  ((heal_resolver_spec smallWorld [] []).2.1
    (smallWorld, [mkActor 0 (createPosition 0 0) ActorType.ENEMY 5 10])
    { id := 0, heal := 3 } (mkActor 0 (createPosition 0 0) ActorType.ENEMY 5 10)
    (by decide) (by decide)).2.1

/-- C1: the attack resolver is the fold of `attackStep`, so each pair sees
the registry as updated by previously processed pairs; a pair whose
target is present is resolved by removal when damage is at least the
target's health and by exact subtraction otherwise, and a pair whose
target is absent changes nothing. -/
theorem attack_resolver_spec (w : World) (reg : List Actor) (props : List (List AttackPair)) :
    (resolveAttack w reg props
        = listFoldR (fun acc proposal => listFoldR attackStep acc proposal) (w, reg) props)
    ∧ (∀ (st : World × List Actor) (pair : AttackPair) (a : Actor),
        getActorById st.2 pair.id = some a →
          ((a.health ≤ pair.damage →
              attackStep st pair = (st.1, removeActor st.2 a.id)
              ∧ (uniqueIds st.2 → getActorById (attackStep st pair).2 pair.id = none))
           ∧ (pair.damage < a.health →
              attackStep st pair
                = (st.1, replaceActor st.2 (setLifePoint a (a.health - pair.damage)))
              ∧ getActorById (attackStep st pair).2 pair.id
                = some (setLifePoint a (a.health - pair.damage)))))
    ∧ (∀ (st : World × List Actor) (pair : AttackPair),
        getActorById st.2 pair.id = none → attackStep st pair = st) := by
  refine ⟨resolveAttack_eq_fold w reg props, ?_, ?_⟩
  · intro st pair a h
    have haid : a.id = pair.id := (getActorById_mem h).2
    have hstep : attackStep st pair
        = if a.health ≤ pair.damage then (st.1, removeActor st.2 a.id)
          else (st.1, replaceActor st.2 (setLifePoint a (a.health - pair.damage))) := by
      unfold attackStep
      rw [h]
    constructor
    · intro hld
      rw [hstep, if_pos hld]
      refine ⟨rfl, ?_⟩
      intro hu
      show getActorById (removeActor st.2 a.id) pair.id = none
      rw [← haid]
      exact getActorById_removeActor_self hu
    · intro hgt
      have hnle : ¬ a.health ≤ pair.damage := not_le.mpr hgt
      rw [hstep, if_neg hnle]
      exact ⟨rfl, getActorById_replace_self h (by rw [setLifePoint_id, haid])⟩
  · intro st pair h
    unfold attackStep
    rw [h]

/-- Witness for `attack_resolver_spec`: damage 7 on actor 0 with health 5
removes it; damage 3 leaves it with health 5 − 3. -/
theorem attack_resolver_spec_witness :
    attackStep (smallWorld, [mkActor 0 (createPosition 0 0) ActorType.ENEMY 5 10])
        { id := 0, damage := 7 } = (smallWorld, [])
    ∧ getActorById (attackStep (smallWorld, [mkActor 0 (createPosition 0 0) ActorType.ENEMY 5 10])
        { id := 0, damage := 7 }).2 0 = none
    ∧ getActorById (attackStep (smallWorld, [mkActor 0 (createPosition 0 0) ActorType.ENEMY 5 10])
        { id := 0, damage := 3 }).2 0
      = some (setLifePoint (mkActor 0 (createPosition 0 0) ActorType.ENEMY 5 10) (5 - 3)) := by
  have h7 := ((attack_resolver_spec smallWorld [] []).2.1
    (smallWorld, [mkActor 0 (createPosition 0 0) ActorType.ENEMY 5 10]) { id := 0, damage := 7 }
    (mkActor 0 (createPosition 0 0) ActorType.ENEMY 5 10) (by decide)).1 (by decide)
  have h3 := ((attack_resolver_spec smallWorld [] []).2.1
    (smallWorld, [mkActor 0 (createPosition 0 0) ActorType.ENEMY 5 10]) { id := 0, damage := 3 }
    (mkActor 0 (createPosition 0 0) ActorType.ENEMY 5 10) (by decide)).2 (by decide)
  refine ⟨?_, ?_, ?_⟩
  · rw [h7.1]
    rfl
  · exact h7.2 (by
      show (List.map Actor.id [mkActor 0 (createPosition 0 0) ActorType.ENEMY 5 10]).Nodup
      decide)
  · exact h3.2

theorem firstSpawn_of_filterMap_ne_nil {props : List (Option Actor)}
    (h : props.filterMap id ≠ []) :
    ∃ a, firstSpawn props = some a ∧ some a ∈ props := by
  induction props with
  | nil => simp at h
  | cons p ps ih =>
    cases p with
    | some q => exact ⟨q, rfl, List.mem_cons_self _ _⟩
    | none =>
      simp only [List.filterMap_cons, id] at h
      obtain ⟨a, h1, h2⟩ := ih h
      exact ⟨a, h1, List.mem_cons_of_mem _ h2⟩

/-- C3: every named spawn proposal is appended to the start-of-phase
registry snapshot, not to the fold's accumulator; consequently the spawn
resolver's result is the snapshot with exactly one proposed actor
appended — the head-most named proposal, which is the one the
right-to-left fold processes last — even when several proposals name
actors. -/
theorem spawn_resolver_spec (w : World) (reg : List Actor) (props : List (Option Actor)) :
    (∀ (st : World × List Actor) (p : Actor), spawnStep reg st (some p) = (st.1, appendList reg p))
    ∧ (resolveSpawn w reg props
        = match firstSpawn props with
          | none => (w, reg)
          | some a => (w, appendList reg a))
    ∧ (2 ≤ (props.filterMap id).length →
        ∃ a, firstSpawn props = some a ∧ some a ∈ props
          ∧ resolveSpawn w reg props = (w, appendList reg a)
          ∧ (resolveSpawn w reg props).2.length = reg.length + 1) := by
  have hchar : resolveSpawn w reg props
      = match firstSpawn props with
        | none => (w, reg)
        | some a => (w, appendList reg a) := by
    induction props with
    | nil => rfl
    | cons p ps ih =>
      cases p with
      | none =>
        show resolveSpawn w reg ps
            = match firstSpawn ps with
              | none => (w, reg)
              | some a => (w, appendList reg a)
        exact ih
      | some q =>
        show ((resolveSpawn w reg ps).1, appendList reg q) = (w, appendList reg q)
        rw [resolveSpawn_fst]
  refine ⟨fun st p => rfl, hchar, ?_⟩
  intro h2
  have hne : props.filterMap id ≠ [] := by
    intro hnil
    rw [hnil] at h2
    simp at h2
  obtain ⟨a, ha, hmem⟩ := firstSpawn_of_filterMap_ne_nil hne
  refine ⟨a, ha, hmem, ?_, ?_⟩
  · rw [hchar, ha]
  · rw [hchar, ha]
    show (appendList reg a).length = reg.length + 1
    rw [appendList_eq, List.length_append]
    rfl

/-- Witness for `spawn_resolver_spec`: two simultaneous spawn proposals on
a one-actor registry produce the snapshot plus only the head-most
proposal, a registry of length 2, not 3. -/
theorem spawn_resolver_spec_witness :
    resolveSpawn smallWorld [mkActor 0 (createPosition 0 0) ActorType.GOAL 1 1]
        [some (mkActor 1 (createPosition 1 1) ActorType.ENEMY 2 2),
         some (mkActor 2 (createPosition 2 2) ActorType.ENEMY 3 3)]
      = (smallWorld, appendList [mkActor 0 (createPosition 0 0) ActorType.GOAL 1 1]
          (mkActor 1 (createPosition 1 1) ActorType.ENEMY 2 2))
    ∧ (resolveSpawn smallWorld [mkActor 0 (createPosition 0 0) ActorType.GOAL 1 1]
        [some (mkActor 1 (createPosition 1 1) ActorType.ENEMY 2 2),
         some (mkActor 2 (createPosition 2 2) ActorType.ENEMY 3 3)]).2.length = 2 := by
  obtain ⟨a, ha, _, heq, hlen⟩ := (spawn_resolver_spec smallWorld
    [mkActor 0 (createPosition 0 0) ActorType.GOAL 1 1]
    [some (mkActor 1 (createPosition 1 1) ActorType.ENEMY 2 2),
     some (mkActor 2 (createPosition 2 2) ActorType.ENEMY 3 3)]).2.2 (by decide)
  have ha2 : a = mkActor 1 (createPosition 1 1) ActorType.ENEMY 2 2 := by
    have hfs : firstSpawn
        [some (mkActor 1 (createPosition 1 1) ActorType.ENEMY 2 2),
         some (mkActor 2 (createPosition 2 2) ActorType.ENEMY 3 3)]
        = some (mkActor 1 (createPosition 1 1) ActorType.ENEMY 2 2) := rfl
    rw [hfs] at ha
    exact (Option.some_inj.mp ha).symm
  subst ha2
  exact ⟨heq, hlen⟩

theorem attackStep_inv {st : World × List Actor} {pair : AttackPair}
    (hinv : healthInv st.2) (hd : 0 ≤ pair.damage) : healthInv (attackStep st pair).2 := by
  cases hga : getActorById st.2 pair.id with
  | none =>
    have hstep : attackStep st pair = st := by
      unfold attackStep
      rw [hga]
    rw [hstep]
    exact hinv
  | some a =>
    have hmem := (getActorById_mem hga).1
    have hstep : attackStep st pair
        = if a.health ≤ pair.damage then (st.1, removeActor st.2 a.id)
          else (st.1, replaceActor st.2 (setLifePoint a (a.health - pair.damage))) := by
      unfold attackStep
      rw [hga]
    rw [hstep]
    by_cases hle : a.health ≤ pair.damage
    · rw [if_pos hle]
      intro b hb
      exact hinv b (mem_of_mem_removeActor hb)
    · rw [if_neg hle]
      intro b hb
      rcases mem_replaceActor hb with h1 | h1
      · exact hinv b h1
      · subst h1
        obtain ⟨hpos, hmax⟩ := hinv a hmem
        have hlt : pair.damage < a.health := lt_of_not_le hle
        constructor
        · show 0 < a.health - pair.damage
          omega
        · show a.health - pair.damage ≤ a.maxHealth
          omega

theorem healStep_inv {st : World × List Actor} {pair : HealPair}
    (hinv : healthInv st.2) (hh : 0 ≤ pair.heal) : healthInv (healStep st pair).2 := by
  cases hga : getActorById st.2 pair.id with
  | none =>
    have hstep : healStep st pair = st := by
      unfold healStep
      rw [hga]
    rw [hstep]
    exact hinv
  | some a =>
    have hmem := (getActorById_mem hga).1
    have hstep : healStep st pair
        = if a.health + pair.heal > a.maxHealth then
            (st.1, replaceActor st.2 (setLifePoint a a.maxHealth))
          else (st.1, replaceActor st.2 (setLifePoint a (a.health + pair.heal))) := by
      unfold healStep
      rw [hga]
    rw [hstep]
    obtain ⟨hpos, hmax⟩ := hinv a hmem
    by_cases hover : a.health + pair.heal > a.maxHealth
    · rw [if_pos hover]
      intro b hb
      rcases mem_replaceActor hb with h1 | h1
      · exact hinv b h1
      · subst h1
        constructor
        · show 0 < a.maxHealth
          omega
        · show a.maxHealth ≤ a.maxHealth
          omega
    · rw [if_neg hover]
      intro b hb
      rcases mem_replaceActor hb with h1 | h1
      · exact hinv b h1
      · subst h1
        constructor
        · show 0 < a.health + pair.heal
          omega
        · show a.health + pair.heal ≤ a.maxHealth
          omega

theorem listFoldR_attackStep_inv (pairs : List AttackPair) (st : World × List Actor)
    (hinv : healthInv st.2) (hd : ∀ p ∈ pairs, 0 ≤ p.damage) :
    healthInv (listFoldR attackStep st pairs).2 := by
  induction pairs with
  | nil => exact hinv
  | cons p ps ih =>
    rw [listFoldR_cons]
    exact attackStep_inv (ih (fun q hq => hd q (List.mem_cons_of_mem _ hq)))
      (hd p (List.mem_cons_self _ _))

theorem listFoldR_healStep_inv (pairs : List HealPair) (st : World × List Actor)
    (hinv : healthInv st.2) (hh : ∀ p ∈ pairs, 0 ≤ p.heal) :
    healthInv (listFoldR healStep st pairs).2 := by
  induction pairs with
  | nil => exact hinv
  | cons p ps ih =>
    rw [listFoldR_cons]
    exact healStep_inv (ih (fun q hq => hh q (List.mem_cons_of_mem _ hq)))
      (hh p (List.mem_cons_self _ _))

/-- C8: the invariant 0 < health ≤ maxHealth on every registry actor is
preserved by the attack resolver and by the heal resolver whenever all
damage and heal amounts are non-negative; in particular lethal damage
removes the target rather than leaving it at non-positive health. -/
theorem health_inv_preserved (w : World) (reg : List Actor)
    (aprops : List (List AttackPair)) (hprops : List (List HealPair))
    (hinv : healthInv reg)
    (hd : ∀ prop ∈ aprops, ∀ p ∈ prop, 0 ≤ p.damage)
    (hh : ∀ prop ∈ hprops, ∀ p ∈ prop, 0 ≤ p.heal) :
    healthInv (resolveAttack w reg aprops).2 ∧ healthInv (resolveHeal w reg hprops).2 := by
  constructor
  · induction aprops with
    | nil => exact hinv
    | cons prop ps ih =>
      have hps := ih (fun q hq => hd q (List.mem_cons_of_mem _ hq))
      cases prop with
      | nil => exact hps
      | cons q qs =>
        show healthInv (listFoldR attackStep (resolveAttack w reg ps) (q :: qs)).2
        exact listFoldR_attackStep_inv (q :: qs) _ hps (hd (q :: qs) (List.mem_cons_self _ _))
  · induction hprops with
    | nil => exact hinv
    | cons prop ps ih =>
      have hps := ih (fun q hq => hh q (List.mem_cons_of_mem _ hq))
      cases prop with
      | nil => exact hps
      | cons q qs =>
        show healthInv (listFoldR healStep (resolveHeal w reg ps) (q :: qs)).2
        exact listFoldR_healStep_inv (q :: qs) _ hps (hh (q :: qs) (List.mem_cons_self _ _))

/-- Witness for `health_inv_preserved`: one attack of damage 2 and one heal
of amount 4 on an actor with health 5 of maximum 10. -/
theorem health_inv_preserved_witness :
    healthInv (resolveAttack smallWorld [mkActor 0 (createPosition 0 0) ActorType.ENEMY 5 10]
        [[{ id := 0, damage := 2 }]]).2
    ∧ healthInv (resolveHeal smallWorld [mkActor 0 (createPosition 0 0) ActorType.ENEMY 5 10]
        [[{ id := 0, heal := 4 }]]).2 :=
  health_inv_preserved smallWorld [mkActor 0 (createPosition 0 0) ActorType.ENEMY 5 10]
    [[{ id := 0, damage := 2 }]] [[{ id := 0, heal := 4 }]]
    (by
      intro a ha
      rw [List.mem_singleton] at ha
      subst ha
      exact ⟨by decide, by decide⟩)
    (by decide) (by decide)

/-! Lemmas for the world construction. -/

theorem positionEquals_eq_false {p q : Position} (h : p ≠ q) : positionEquals p q = false := by
  cases hb : positionEquals p q
  · rfl
  · exact absurd (positionEquals_eq_true.mp hb) h

theorem position_eq_iff {p q : Position} : p = q ↔ p.x = q.x ∧ p.y = q.y := by
  cases p
  cases q
  simp [Position.mk.injEq]

theorem createPosition_x (x y : Int) : (createPosition x y).x = x := rfl

theorem createPosition_y (x y : Int) : (createPosition x y).y = y := rfl

theorem countAt_nil (p : Position) : countAt [] p = 0 := rfl

theorem countAt_cons (v : Vertex) (l : List Vertex) (p : Position) :
    countAt (v :: l) p = countAt l p + (if v.pos = p then 1 else 0) := by
  unfold countAt
  rw [List.countP_cons]
  simp [decide_eq_true_eq]

theorem countAt_appendList (l : List Vertex) (v : Vertex) (p : Position) :
    countAt (appendList l v) p = countAt l p + (if v.pos = p then 1 else 0) := by
  rw [appendList_eq]
  unfold countAt
  rw [List.countP_append]
  simp [List.countP_cons, decide_eq_true_eq]

theorem addEdgesToVertex_pos (vs : List Vertex) (size : Position) (v : Vertex) :
    (addEdgesToVertex vs size v).pos = v.pos := by
  have hstep : ∀ (u : Vertex) (c : Prop) [Decidable c] (e : Edge),
      (if c then addEdge u e else u).pos = u.pos := by
    intro u c hc e
    split <;> rfl
  unfold addEdgesToVertex
  dsimp only
  rw [hstep, hstep, hstep, hstep]

theorem countAt_addEdgesToGraphRec (vs : List Vertex) (size : Position)
    (cursor : List Vertex) (p : Position) :
    countAt (addEdgesToGraphRec vs size cursor) p = countAt cursor p := by
  induction cursor with
  | nil => rfl
  | cons h t ih =>
    show countAt (appendList (addEdgesToGraphRec vs size t) (addEdgesToVertex vs size h)) p = _
    rw [countAt_appendList, ih, countAt_cons, addEdgesToVertex_pos]

theorem createVertexesRec_spec (fuel : Nat) :
    ∀ cur size : Position,
    0 ≤ cur.x → cur.x ≤ size.x → 0 ≤ cur.y → cur.y ≤ size.y →
    (size.x - cur.x).toNat + 1 + (size.y - cur.y).toNat * (size.x.toNat + 1) ≤ fuel →
    ∃ l, createVertexesRec fuel cur size = some l
      ∧ ∀ p : Position, countAt l p = if inRegion cur size p then 1 else 0 := by
  induction fuel with
  | zero =>
    intro cur size _ _ _ _ h5
    omega
  | succ n ih =>
    intro cur size h1 h2 h3 h4 h5
    by_cases heq : cur = size
    · subst heq
      refine ⟨[createVertex cur []], ?_, ?_⟩
      · have hred : createVertexesRec (n + 1) cur cur
            = if positionEquals cur cur = true then some (appendList [] (createVertex cur []))
              else match createVertexesRec n
                  (if cur.x ≥ cur.x then createPosition 0 (cur.y + 1)
                   else createPosition (cur.x + 1) cur.y) cur with
                | none => none
                | some l => some (appendList l (createVertex cur [])) := rfl
        rw [hred, if_pos (positionEquals_self cur)]
        rfl
      · intro p
        have hc : countAt [createVertex cur []] p = if cur = p then 1 else 0 := by
          rw [countAt_cons, countAt_nil, Nat.zero_add]
          rfl
        rw [hc]
        have hiff : inRegion cur cur p ↔ cur = p := by
          unfold inRegion
          rw [position_eq_iff]
          omega
        by_cases hp : cur = p
        · rw [if_pos hp, if_pos (hiff.mpr hp)]
        · rw [if_neg hp, if_neg (fun hc2 => hp (hiff.mp hc2))]
    · have hpe : positionEquals cur size = false := positionEquals_eq_false heq
      have hred : createVertexesRec (n + 1) cur size
          = if positionEquals cur size = true then some (appendList [] (createVertex cur []))
            else match createVertexesRec n
                (if cur.x ≥ size.x then createPosition 0 (cur.y + 1)
                 else createPosition (cur.x + 1) cur.y) size with
              | none => none
              | some l => some (appendList l (createVertex cur [])) := rfl
      rw [hred, if_neg (by simp [hpe])]
      by_cases hx : cur.x ≥ size.x
      · have hxe : cur.x = size.x := le_antisymm h2 hx
        have hylt : cur.y < size.y := by
          rcases lt_or_eq_of_le h4 with h | h
          · exact h
          · exact absurd (position_eq_iff.mpr ⟨hxe, h⟩) heq
        rw [if_pos hx]
        obtain ⟨l, hl, hcount⟩ := ih (createPosition 0 (cur.y + 1)) size
          (by rw [createPosition_x])
          (by rw [createPosition_x]; omega)
          (by rw [createPosition_y]; omega)
          (by rw [createPosition_y]; omega)
          (by
            rw [createPosition_x, createPosition_y]
            have hT : (size.y - cur.y).toNat = (size.y - (cur.y + 1)).toNat + 1 := by omega
            rw [hT, add_mul, one_mul] at h5
            have hX0 : (size.x - 0).toNat = size.x.toNat := by omega
            rw [hX0]
            generalize (size.y - (cur.y + 1)).toNat * (size.x.toNat + 1) = P at h5 ⊢
            omega)
        refine ⟨appendList l (createVertex cur []), by rw [hl], ?_⟩
        intro p
        rw [countAt_appendList, hcount p, show (createVertex cur []).pos = cur from rfl]
        have hiff : inRegion cur size p
            ↔ inRegion (createPosition 0 (cur.y + 1)) size p ∨ cur = p := by
          unfold inRegion
          rw [position_eq_iff, createPosition_x, createPosition_y]
          omega
        have hdisj : ¬(inRegion (createPosition 0 (cur.y + 1)) size p ∧ cur = p) := by
          unfold inRegion
          rw [position_eq_iff, createPosition_x, createPosition_y]
          omega
        by_cases hA : inRegion (createPosition 0 (cur.y + 1)) size p
        · rw [if_pos hA, if_pos (hiff.mpr (Or.inl hA)), if_neg (fun hc => hdisj ⟨hA, hc⟩)]
        · rw [if_neg hA]
          by_cases hB : cur = p
          · rw [if_pos hB, if_pos (hiff.mpr (Or.inr hB))]
          · rw [if_neg hB, if_neg (by
              intro hc
              rcases hiff.mp hc with h | h
              · exact hA h
              · exact hB h)]
      · have hxlt : cur.x < size.x := lt_of_not_le hx
        rw [if_neg hx]
        obtain ⟨l, hl, hcount⟩ := ih (createPosition (cur.x + 1) cur.y) size
          (by rw [createPosition_x]; omega)
          (by rw [createPosition_x]; omega)
          (by rw [createPosition_y]; omega)
          (by rw [createPosition_y]; omega)
          (by
            rw [createPosition_x, createPosition_y]
            have hT : (size.x - cur.x).toNat = (size.x - (cur.x + 1)).toNat + 1 := by omega
            rw [hT] at h5
            generalize (size.y - cur.y).toNat * (size.x.toNat + 1) = P at h5 ⊢
            omega)
        refine ⟨appendList l (createVertex cur []), by rw [hl], ?_⟩
        intro p
        rw [countAt_appendList, hcount p, show (createVertex cur []).pos = cur from rfl]
        have hiff : inRegion cur size p
            ↔ inRegion (createPosition (cur.x + 1) cur.y) size p ∨ cur = p := by
          unfold inRegion
          rw [position_eq_iff, createPosition_x, createPosition_y]
          omega
        have hdisj : ¬(inRegion (createPosition (cur.x + 1) cur.y) size p ∧ cur = p) := by
          unfold inRegion
          rw [position_eq_iff, createPosition_x, createPosition_y]
          omega
        by_cases hA : inRegion (createPosition (cur.x + 1) cur.y) size p
        · rw [if_pos hA, if_pos (hiff.mpr (Or.inl hA)), if_neg (fun hc => hdisj ⟨hA, hc⟩)]
        · rw [if_neg hA]
          by_cases hB : cur = p
          · rw [if_pos hB, if_pos (hiff.mpr (Or.inr hB))]
          · rw [if_neg hB, if_neg (by
              intro hc
              rcases hiff.mp hc with h | h
              · exact hA h
              · exact hB h)]

/-- C4 (amended): for every size with non-negative coordinates and enough
fuel, `buildWorld` yields a graph whose vertex list holds exactly one
vertex per integer coordinate of [0, size.x] x [0, size.y] — and whose
stored count `n` is `size.x * size.y`, the value the source stores (not
`(size.x+1) * (size.y+1)`). -/
theorem buildWorld_spec (size : Position) (fuel : Nat)
    (hx : 0 ≤ size.x) (hy : 0 ≤ size.y)
    (hfuel : (size.x.toNat + 1) * (size.y.toNat + 1) ≤ fuel) :
    ∃ w, buildWorld fuel size = some w
      ∧ (∀ p : Position,
          countAt w.graph.vertexes p
            = if 0 ≤ p.x ∧ p.x ≤ size.x ∧ 0 ≤ p.y ∧ p.y ≤ size.y then 1 else 0)
      ∧ w.graph.n = size.x * size.y := by
  obtain ⟨l, hl, hcount⟩ := createVertexesRec_spec fuel (createPosition 0 0) size
    (by rw [createPosition_x])
    (by rw [createPosition_x]; exact hx)
    (by rw [createPosition_y])
    (by rw [createPosition_y]; exact hy)
    (by
      rw [createPosition_x, createPosition_y]
      have h1 : (size.x - 0).toNat = size.x.toNat := by omega
      have h2 : (size.y - 0).toNat = size.y.toNat := by omega
      rw [h1, h2]
      calc size.x.toNat + 1 + size.y.toNat * (size.x.toNat + 1)
          = (size.x.toNat + 1) * (size.y.toNat + 1) := by ring
        _ ≤ fuel := hfuel)
  refine ⟨{ graph := createGraph (addEdgesToGraph l size) (size.x * size.y), size := size },
    ?_, ?_, rfl⟩
  · unfold buildWorld
    rw [hl]
  · intro p
    show countAt (addEdgesToGraph l size) p = _
    unfold addEdgesToGraph
    rw [countAt_addEdgesToGraphRec, hcount p]
    have hiff : inRegion (createPosition 0 0) size p
        ↔ 0 ≤ p.x ∧ p.x ≤ size.x ∧ 0 ≤ p.y ∧ p.y ≤ size.y := by
      unfold inRegion
      rw [createPosition_x, createPosition_y]
      omega
    by_cases hp : inRegion (createPosition 0 0) size p
    · rw [if_pos hp, if_pos (hiff.mp hp)]
    · rw [if_neg hp, if_neg (fun hc => hp (hiff.mpr hc))]

/-- Counterexample to C4 as stated: at size (1,1) the stored count is
`1 * 1 = 1`, not `(1+1) * (1+1) = 4`. -/
theorem buildWorld_n_counterexample :
    (buildWorld 10 (createPosition 1 1)).map (fun w => w.graph.n) = some 1
    ∧ ¬ ((1 : Int) + 1) * (1 + 1) = 1 :=
  ⟨rfl, by decide⟩

/-- Witness for `buildWorld_spec` at size (2,2): the coordinate (1,2) is
covered exactly once, (3,0) not at all, and the stored count is 4. -/
theorem buildWorld_spec_witness :
    (buildWorld 9 (createPosition 2 2)).map
        (fun w => countAt w.graph.vertexes (createPosition 1 2)) = some 1
    ∧ (buildWorld 9 (createPosition 2 2)).map
        (fun w => countAt w.graph.vertexes (createPosition 3 0)) = some 0
    ∧ (buildWorld 9 (createPosition 2 2)).map (fun w => w.graph.n) = some 4 := by
  obtain ⟨w, hw, hcount, hn⟩ := buildWorld_spec (createPosition 2 2) 9
    (by decide) (by decide) (by decide)
  rw [hw]
  refine ⟨?_, ?_, ?_⟩
  · show some (countAt w.graph.vertexes (createPosition 1 2)) = some 1
    rw [hcount, if_pos (by decide)]
  · show some (countAt w.graph.vertexes (createPosition 3 0)) = some 0
    rw [hcount, if_neg (by decide)]
  · show some w.graph.n = some 4
    rw [hn]
    decide

/-! Lemmas for the pathfinder. -/

theorem getVertexByPos_some {vs : List Vertex} {pos : Position} {v : Vertex}
    (h : getVertexByPos vs pos = some v) : v.pos = pos ∧ v ∈ vs := by
  induction vs with
  | nil => simp [getVertexByPos] at h
  | cons hd t ih =>
    by_cases hp : positionEquals hd.pos pos = true
    · rw [getVertexByPos, if_pos hp] at h
      have hv : v = hd := by
        have := h.symm
        simpa using this
      subst hv
      exact ⟨positionEquals_eq_true.mp hp, List.mem_cons_self _ _⟩
    · rw [getVertexByPos, if_neg hp] at h
      obtain ⟨h1, h2⟩ := ih h
      exact ⟨h1, List.mem_cons_of_mem _ h2⟩

theorem getVertexByPos_eq_none {vs : List Vertex} {pos : Position}
    (h : ∀ v ∈ vs, v.pos ≠ pos) : getVertexByPos vs pos = none := by
  induction vs with
  | nil => rfl
  | cons hd t ih =>
    have hp : positionEquals hd.pos pos = false :=
      positionEquals_eq_false (h hd (List.mem_cons_self _ _))
    rw [getVertexByPos, if_neg (by simp [hp])]
    exact ih (fun v hv => h v (List.mem_cons_of_mem _ hv))

theorem getVertexByPos_isSome {vs : List Vertex} {pos : Position}
    (h : ∃ v ∈ vs, v.pos = pos) :
    ∃ v0, getVertexByPos vs pos = some v0 ∧ v0.pos = pos := by
  induction vs with
  | nil => simp at h
  | cons hd t ih =>
    by_cases hp : positionEquals hd.pos pos = true
    · exact ⟨hd, by rw [getVertexByPos, if_pos hp], positionEquals_eq_true.mp hp⟩
    · rw [getVertexByPos, if_neg hp]
      apply ih
      obtain ⟨v, hv, hvp⟩ := h
      rcases List.mem_cons.mp hv with h1 | h1
      · subst h1
        exact absurd (positionEquals_eq_true.mpr hvp) hp
      · exact ⟨v, h1, hvp⟩

theorem makeNode_some_eq (c : Node) (v : Vertex) (dst : Position) :
    makeNode (some c) v dst
      = .mk v (some c) (c.distance + 1) (c.distance + 1, sqDist v.pos dst) := rfl

theorem makeNode_none_eq (v : Vertex) (dst : Position) :
    makeNode none v dst = .mk v none 0 (0, sqDist v.pos dst) := rfl

theorem makeNode_some_vertex (c : Node) (v : Vertex) (dst : Position) :
    (makeNode (some c) v dst).vertex = v := rfl

theorem reconstructPath_ok {src : Position} {actors : List Actor} {node : Node}
    (h : NodeOk src actors node) :
    ∀ v ∈ reconstructPath node, v.pos = src ∨ isWalkableByEnemy actors v.pos = true := by
  induction h with
  | root v d s hv =>
    intro u hu
    rw [show reconstructPath (.mk v none d s) = [v] from rfl, List.mem_singleton] at hu
    subst hu
    exact Or.inl hv
  | step v p d s hw hp ih =>
    intro u hu
    rw [show reconstructPath (.mk v (some p) d s) = appendList (reconstructPath p) v from rfl,
      appendList_eq, List.mem_append, List.mem_singleton] at hu
    rcases hu with hu | hu
    · exact ih u hu
    · subst hu
      exact Or.inr hw

theorem listFoldR_pick_mem (l : List Node) (init : Node) :
    listFoldR (fun acc node => if scoreLt node.score acc.score then node else acc) init l = init
    ∨ listFoldR (fun acc node => if scoreLt node.score acc.score then node else acc) init l ∈ l := by
  induction l with
  | nil => exact Or.inl rfl
  | cons h t ih =>
    rw [listFoldR_cons]
    by_cases hs : scoreLt h.score
        (listFoldR (fun acc node => if scoreLt node.score acc.score then node else acc) init t).score
        = true
    · rw [if_pos hs]
      exact Or.inr (List.mem_cons_self _ _)
    · rw [if_neg hs]
      rcases ih with h1 | h1
      · exact Or.inl h1
      · exact Or.inr (List.mem_cons_of_mem _ h1)

theorem extractClosestNode_mem {ns : List Node} {n : Node}
    (h : extractClosestNode ns = some n) : n ∈ ns := by
  cases ns with
  | nil => simp [extractClosestNode] at h
  | cons hd t =>
    have hn : n = listFoldR (fun acc node => if scoreLt node.score acc.score then node else acc)
        hd (hd :: t) := by
      have := h.symm
      simpa [extractClosestNode] using this
    subst hn
    rcases listFoldR_pick_mem (hd :: t) hd with h1 | h1
    · rw [h1]
      exact List.mem_cons_self _ _
    · exact h1

theorem mem_of_mem_removeNodeFromList {ns : List Node} {m n : Node}
    (h : n ∈ removeNodeFromList ns m) : n ∈ ns := by
  induction ns with
  | nil => simp [removeNodeFromList] at h
  | cons hd t ih =>
    by_cases hp : positionEquals hd.vertex.pos m.vertex.pos = true
    · rw [removeNodeFromList, if_pos hp] at h
      exact List.mem_cons_of_mem _ h
    · rw [removeNodeFromList, if_neg hp] at h
      rcases List.mem_cons.mp h with h1 | h1
      · exact h1 ▸ List.mem_cons_self _ _
      · exact List.mem_cons_of_mem _ (ih h1)

theorem mem_of_updateNodeInList {ns ns2 : List Node} {m n : Node}
    (hu : updateNodeInList ns m = some ns2) (h : n ∈ ns2) : n ∈ ns ∨ n = m := by
  induction ns generalizing ns2 with
  | nil => simp [updateNodeInList] at hu
  | cons hd t ih =>
    by_cases hp : positionEquals hd.vertex.pos m.vertex.pos = true
    · rw [updateNodeInList, if_pos hp] at hu
      by_cases hlt : m.distance < hd.distance
      · rw [if_pos hlt] at hu
        have hns2 : ns2 = m :: t := by
          have := hu.symm
          simpa using this
        subst hns2
        rcases List.mem_cons.mp h with h1 | h1
        · exact Or.inr h1
        · exact Or.inl (List.mem_cons_of_mem _ h1)
      · rw [if_neg hlt] at hu
        have hns2 : ns2 = hd :: t := by
          have := hu.symm
          simpa using this
        subst hns2
        exact Or.inl h
    · rw [updateNodeInList, if_neg hp] at hu
      cases hrec : updateNodeInList t m with
      | none =>
        rw [hrec] at hu
        exact absurd hu (by simp)
      | some t2 =>
        rw [hrec] at hu
        have hns2 : ns2 = hd :: t2 := by
          have := hu.symm
          simpa using this
        subst hns2
        rcases List.mem_cons.mp h with h1 | h1
        · exact Or.inl (h1 ▸ List.mem_cons_self _ _)
        · rcases ih hrec h1 with h2 | h2
          · exact Or.inl (List.mem_cons_of_mem _ h2)
          · exact Or.inr h2

theorem neighborStep_ok {src : Position} {G : Graph} {actors : List Actor} {dst : Position}
    {current : Node} (hcur : NodeOk src actors current)
    (acc : Except PathError (List Node × List Node)) (edge : Edge)
    (hacc : ∀ ol cl, acc = .ok (ol, cl) → ∀ n ∈ ol, NodeOk src actors n) :
    ∀ ol cl, neighborStep G actors dst current acc edge = .ok (ol, cl) →
      ∀ n ∈ ol, NodeOk src actors n := by
  intro ol cl hres n hn
  cases acc with
  | error e =>
    rw [show neighborStep G actors dst current (.error e) edge = .error e from rfl] at hres
    exact absurd hres (by simp)
  | ok pair =>
    obtain ⟨ol0, cl0⟩ := pair
    have hacc0 : ∀ m ∈ ol0, NodeOk src actors m := hacc ol0 cl0 rfl
    unfold neighborStep at hres
    dsimp only at hres
    cases hv : getVertexByPos G.vertexes edge.vertex.pos with
    | none =>
      rw [hv] at hres
      exact absurd hres (by simp)
    | some v =>
      rw [hv] at hres
      dsimp only at hres
      by_cases h1 : isNodeInList cl0 (makeNode (some current) v dst) = true
      · rw [if_pos h1] at hres
        simp only [Except.ok.injEq, Prod.mk.injEq] at hres
        obtain ⟨he1, he2⟩ := hres
        subst he1
        exact hacc0 n hn
      · rw [if_neg h1] at hres
        by_cases h2 : (!isWalkableByEnemy actors (makeNode (some current) v dst).vertex.pos) = true
        · rw [if_pos h2] at hres
          simp only [Except.ok.injEq, Prod.mk.injEq] at hres
          obtain ⟨he1, he2⟩ := hres
          subst he1
          exact hacc0 n hn
        · rw [if_neg h2] at hres
          have hwalk : isWalkableByEnemy actors v.pos = true := by
            rw [makeNode_some_vertex] at h2
            simpa using h2
          have hnb : NodeOk src actors (makeNode (some current) v dst) := by
            rw [makeNode_some_eq]
            exact NodeOk.step _ _ _ _ hwalk hcur
          by_cases h3 : (!isNodeInList ol0 (makeNode (some current) v dst)) = true
          · rw [if_pos h3] at hres
            simp only [Except.ok.injEq, Prod.mk.injEq] at hres
            obtain ⟨he1, he2⟩ := hres
            subst he1
            rw [appendList_eq, List.mem_append, List.mem_singleton] at hn
            rcases hn with hn | hn
            · exact hacc0 n hn
            · subst hn
              exact hnb
          · rw [if_neg h3] at hres
            cases hup : updateNodeInList ol0 (makeNode (some current) v dst) with
            | none =>
              rw [hup] at hres
              exact absurd hres (by simp)
            | some l2 =>
              rw [hup] at hres
              simp only [Except.ok.injEq, Prod.mk.injEq] at hres
              obtain ⟨he1, he2⟩ := hres
              subst he1
              rcases mem_of_updateNodeInList hup hn with hm | hm
              · exact hacc0 n hm
              · subst hm
                exact hnb

theorem listFoldR_neighborStep_ok {src : Position} {G : Graph} {actors : List Actor}
    {dst : Position} {current : Node} (hcur : NodeOk src actors current)
    (edges : List Edge) (acc : Except PathError (List Node × List Node))
    (hacc : ∀ ol cl, acc = .ok (ol, cl) → ∀ n ∈ ol, NodeOk src actors n) :
    ∀ ol cl, listFoldR (neighborStep G actors dst current) acc edges = .ok (ol, cl) →
      ∀ n ∈ ol, NodeOk src actors n := by
  induction edges with
  | nil => exact hacc
  | cons e es ih =>
    intro ol cl hres
    rw [listFoldR_cons] at hres
    exact neighborStep_ok hcur _ e ih ol cl hres

theorem pathfindingRec_ok (src : Position) (actors : List Actor) :
    ∀ (fuel : Nat) (openL closedL : List Node) (dst : Position) (G : Graph)
      (path : List Vertex),
    (∀ n ∈ openL, NodeOk src actors n) →
    pathfindingRec fuel openL closedL dst G actors = some (Except.ok path) →
    ∀ v ∈ path, v.pos = src ∨ isWalkableByEnemy actors v.pos = true := by
  intro fuel
  induction fuel with
  | zero =>
    intro openL closedL dst G path _ hrun
    exact absurd hrun (by simp [pathfindingRec])
  | succ m ih =>
    intro openL closedL dst G path hopen hrun
    cases openL with
    | nil =>
      have hred : pathfindingRec (m + 1) [] closedL dst G actors
          = some (.ok ([] : List Vertex)) := rfl
      rw [hred] at hrun
      have hpath : path = [] := by
        have := hrun.symm
        simpa using this
      subst hpath
      intro v hv
      simp at hv
    | cons h t =>
      have hred : pathfindingRec (m + 1) (h :: t) closedL dst G actors
          = match extractClosestNode (h :: t) with
            | none => some (.error .unexpected)
            | some current =>
              if positionEquals current.vertex.pos dst = true then
                some (.ok (reconstructPath current))
              else
                match listFoldR (neighborStep G actors dst current)
                    (.ok (removeNodeFromList (h :: t) current, appendList closedL current))
                    current.vertex.adj with
                | .error e => some (.error e)
                | .ok (o, c) => pathfindingRec m o c dst G actors := rfl
      rw [hred] at hrun
      cases hec : extractClosestNode (h :: t) with
      | none =>
        rw [hec] at hrun
        exact absurd hrun (by simp)
      | some current =>
        rw [hec] at hrun
        dsimp only at hrun
        have hcur : NodeOk src actors current := hopen current (extractClosestNode_mem hec)
        by_cases hdst : positionEquals current.vertex.pos dst = true
        · rw [if_pos hdst] at hrun
          have hpath : path = reconstructPath current := by
            have := hrun.symm
            simpa using this
          subst hpath
          exact reconstructPath_ok hcur
        · rw [if_neg hdst] at hrun
          cases hfold : listFoldR (neighborStep G actors dst current)
              (.ok (removeNodeFromList (h :: t) current, appendList closedL current))
              current.vertex.adj with
          | error e =>
            rw [hfold] at hrun
            exact absurd hrun (by simp)
          | ok pair =>
            obtain ⟨o, c⟩ := pair
            rw [hfold] at hrun
            dsimp only at hrun
            refine ih o c dst G path ?_ hrun
            refine listFoldR_neighborStep_ok hcur _ _ ?_ o c hfold
            intro ol cl hinit
            simp only [Except.ok.injEq, Prod.mk.injEq] at hinit
            obtain ⟨h1, h2⟩ := hinit
            subst h1
            intro n hn
            exact hopen n (mem_of_mem_removeNodeFromList hn)

/-- C2: every vertex of a path returned by `pathfinding` other than the
source lies on a cell walkable by enemies; in particular on the 3 by 3
world with a WALL at (1,0), no returned path for source (0,0) and
destination (2,0) contains the vertex at (1,0). -/
theorem pathfinding_walkable :
    (∀ (fuel : Nat) (src dst : Position) (G : Graph) (actors : List Actor)
        (path : List Vertex),
        pathfinding fuel src dst G actors = some (Except.ok path) →
        ∀ v ∈ path, v.pos ≠ src → isWalkableByEnemy actors v.pos = true)
    ∧ (∀ (fuel : Nat) (w : World) (path : List Vertex),
        world3 = some w →
        pathfinding fuel (createPosition 0 0) (createPosition 2 0) w.graph wallActors
          = some (Except.ok path) →
        ∀ v ∈ path, v.pos ≠ createPosition 1 0) := by
  have hgen : ∀ (fuel : Nat) (src dst : Position) (G : Graph) (actors : List Actor)
      (path : List Vertex),
      pathfinding fuel src dst G actors = some (Except.ok path) →
      ∀ v ∈ path, v.pos ≠ src → isWalkableByEnemy actors v.pos = true := by
    intro fuel src dst G actors path hrun v hv hvs
    unfold pathfinding at hrun
    cases hv0 : getVertexByPos G.vertexes src with
    | none =>
      rw [hv0] at hrun
      exact absurd hrun (by simp)
    | some v0 =>
      rw [hv0] at hrun
      dsimp only at hrun
      have hopen : ∀ n ∈ [makeNode none v0 dst], NodeOk src actors n := by
        intro n hn
        rw [List.mem_singleton] at hn
        subst hn
        rw [makeNode_none_eq]
        exact NodeOk.root _ _ _ (getVertexByPos_some hv0).1
      rcases pathfindingRec_ok src actors fuel _ _ dst G path hopen hrun v hv with h | h
      · exact absurd h hvs
      · exact h
  refine ⟨hgen, ?_⟩
  intro fuel w path hw3 hrun v hv hvp
  have hwalk := hgen fuel (createPosition 0 0) (createPosition 2 0) w.graph wallActors
    path hrun v hv (by rw [hvp]; decide)
  rw [hvp] at hwalk
  exact absurd hwalk (by decide)

/-- Witness for `pathfinding_walkable`: the concrete run on the 3 by 3
world with the WALL at (1,0) returns a path avoiding (1,0). -/
theorem pathfinding_walkable_witness :
    world3.map (fun w =>
        pathAvoids (pathfinding 50 (createPosition 0 0) (createPosition 2 0) w.graph wallActors)
          (createPosition 1 0)) = some true := by
  obtain ⟨w, path, hw, hpath⟩ : ∃ w p, world3 = some w
      ∧ pathfinding 50 (createPosition 0 0) (createPosition 2 0) w.graph wallActors
        = some (Except.ok p) := ⟨_, _, rfl, rfl⟩
  have havoid := pathfinding_walkable.2 50 w path hw hpath
  rw [hw]
  show some (pathAvoids
      (pathfinding 50 (createPosition 0 0) (createPosition 2 0) w.graph wallActors)
      (createPosition 1 0)) = some true
  rw [hpath]
  show some (path.all (fun v => !(positionEquals v.pos (createPosition 1 0)))) = some true
  have hall : path.all (fun v => !(positionEquals v.pos (createPosition 1 0))) = true := by
    rw [List.all_eq_true]
    intro v hv
    rw [positionEquals_eq_false (havoid v hv)]
    rfl
  rw [hall]

/-- C10: when the source position matches no vertex of the graph,
`pathfinding` fails at once with the vertex-not-found error of
`getVertexByPos` (it returns no path, empty or otherwise); when some
vertex sits at the source, the initial lookup succeeds and the search
proceeds. -/
theorem pathfinding_src_lookup :
    (∀ (fuel : Nat) (src dst : Position) (G : Graph) (actors : List Actor),
        (∀ v ∈ G.vertexes, v.pos ≠ src) →
        pathfinding fuel src dst G actors
          = some (Except.error (PathError.vertexNotFound src)))
    ∧ (∀ (fuel : Nat) (src dst : Position) (G : Graph) (actors : List Actor),
        (∃ v ∈ G.vertexes, v.pos = src) →
        ∃ v0, getVertexByPos G.vertexes src = some v0 ∧ v0.pos = src
          ∧ pathfinding fuel src dst G actors
            = pathfindingRec fuel [makeNode none v0 dst] [] dst G actors) := by
  constructor
  · intro fuel src dst G actors h
    unfold pathfinding
    rw [getVertexByPos_eq_none h]
  · intro fuel src dst G actors h
    obtain ⟨v0, hv0, hpos⟩ := getVertexByPos_isSome h
    refine ⟨v0, hv0, hpos, ?_⟩
    unfold pathfinding
    rw [hv0]

/-- Witness for `pathfinding_src_lookup`: on a one-vertex graph at (0,0),
searching from (5,5) raises the vertex-not-found error, while the lookup
at (0,0) succeeds. -/
theorem pathfinding_src_lookup_witness :
    pathfinding 3 (createPosition 5 5) (createPosition 0 0)
        (createGraph [createVertex (createPosition 0 0) []] 1) []
      = some (Except.error (PathError.vertexNotFound (createPosition 5 5)))
    ∧ (getVertexByPos [createVertex (createPosition 0 0) []] (createPosition 0 0)).isSome
      = true := by
  constructor
  · apply pathfinding_src_lookup.1 3 (createPosition 5 5) (createPosition 0 0)
      (createGraph [createVertex (createPosition 0 0) []] 1) []
    intro v hv
    have hv2 : v ∈ [createVertex (createPosition 0 0) []] := hv
    rw [List.mem_singleton] at hv2
    subst hv2
    decide
  · obtain ⟨v0, hv0, -, -⟩ := pathfinding_src_lookup.2 3 (createPosition 0 0)
      (createPosition 0 0) (createGraph [createVertex (createPosition 0 0) []] 1) []
      ⟨createVertex (createPosition 0 0) [], List.mem_singleton.mpr rfl, rfl⟩
    show (getVertexByPos
        (createGraph [createVertex (createPosition 0 0) []] 1).vertexes
        (createPosition 0 0)).isSome = true
    rw [hv0]
    rfl
